import Mathlib

/-!
Verification of the relationship-building core of the `dbinfo` package
(`dbinfo.go`) and of the YAML presentation adapter (`cmd/dbinfo/main.go`).

The Go data model is embedded shallowly:
  * Go slices of relationship entries are modelled as `Option (List Relationship)`
    where `none` models a nil slice and `some l` a non-nil slice with elements `l`;
    for any other slice field the nil/non-nil distinction is never observed by the
    code under verification, so a plain `List` is used.
  * `tables []*Table` is modelled as `List Table`; the distinct pointers of the
    Go slice are modelled by positions in the list, and mutation through a pointer
    becomes an update of the list at that position.
  * The Go map `map[string]*Table` built by `buildRelationships` is modelled by
    `tableMapLookup`, which returns the position of the last table inserted under
    a given key (later insertions overwrite earlier ones, as in a Go map).
-/

namespace Dbinfo

/-- Column of a table (`Column` in dbinfo.go). The Go field `Type` is renamed
`Type'` because `Type` is reserved in Lean; no claim depends on it. -/
structure Column where
  Name : String
  Type' : String
  IsNullable : Bool
  DefaultValue : String
  Comment : String
  IsPrimaryKey : Bool
  deriving Repr, DecidableEq

/-- Index of a table (`Index` in dbinfo.go). -/
structure Index where
  Name : String
  Unique : Bool
  Columns : List String
  Expression : String
  deriving Repr, DecidableEq

/-- Foreign key constraint (`ForeignKey` in dbinfo.go). -/
structure ForeignKey where
  Name : String
  ColumnNames : List String
  RefTableSchema : String
  RefTableName : String
  RefColumnNames : List String
  OnUpdate : String
  OnDelete : String
  deriving Repr, DecidableEq

/-- Relationship between tables (`Relationship` in dbinfo.go). -/
structure Relationship where
  Table : String
  Schema : String
  ForeignKey : String
  Columns : List String
  References : List String
  OnUpdate : String
  OnDelete : String
  deriving Repr, DecidableEq

/-- Database table (`Table` in dbinfo.go). `HasMany`/`BelongsTo` are
`Option (List Relationship)`: `none` models a Go nil slice. -/
structure Table where
  Name : String
  Schema : String
  Columns : List Column
  Indexes : List Index
  ForeignKeys : List ForeignKey
  HasMany : Option (List Relationship)
  BelongsTo : Option (List Relationship)
  Comment : String
  deriving Repr, DecidableEq

/-- Database structure (`DBInfo` in dbinfo.go). -/
structure DBInfo where
  Name : String
  Tables : List Table
  deriving Repr, DecidableEq

/-- The lookup key used by `buildRelationships`: `table.Schema + "." + table.Name`. -/
def tableKey (schema name : String) : String := schema ++ "." ++ name

/-- Key of a table, as inserted into the lookup map. -/
def Table.key (t : Table) : String := tableKey t.Schema t.Name

/-- Key under which a foreign key looks up its referenced table:
`fk.RefTableSchema + "." + fk.RefTableName`. -/
def fkRefKey (fk : ForeignKey) : String := tableKey fk.RefTableSchema fk.RefTableName

/-- Model of the Go map `tableMap`: the map is filled by inserting each table in
slice order with its key, later insertions overwriting earlier ones, so a lookup
returns the position of the last table whose key matches. `i` is the position of
the head of `ts` in the full slice. -/
def tableMapLookupAux (key : String) : Nat → List Table → Option Nat
  | _, [] => none
  | i, t :: ts =>
    match tableMapLookupAux key (i + 1) ts with
    | some j => some j
    | none => if t.key = key then some i else none

/-- Lookup in the table map built from `tables`. -/
def tableMapLookup (tables : List Table) (key : String) : Option Nat :=
  tableMapLookupAux key 0 tables

/-- Replace the element at position `i` of a list by its image under `f`
(identity when `i` is out of range); models mutation through a Go pointer. -/
def modifyIdx {α : Type} (f : α → α) : Nat → List α → List α
  | _, [] => []
  | 0, a :: l => f a :: l
  | n + 1, a :: l => a :: modifyIdx f n l

/-- The `BelongsTo` entry built from a foreign key `fk` of the current table
(lines 138-146 of dbinfo.go). -/
def mkBelongsTo (fk : ForeignKey) : Relationship :=
  { Table := fk.RefTableName
    Schema := fk.RefTableSchema
    ForeignKey := fk.Name
    Columns := fk.ColumnNames
    References := fk.RefColumnNames
    OnUpdate := fk.OnUpdate
    OnDelete := fk.OnDelete }

/-- The `HasMany` entry added to the referenced table for a foreign key `fk`
held by the table named `tableName` in `tableSchema` (lines 152-160 of
dbinfo.go); the column roles are swapped relative to `mkBelongsTo`. -/
def mkHasMany (tableName tableSchema : String) (fk : ForeignKey) : Relationship :=
  { Table := tableName
    Schema := tableSchema
    ForeignKey := fk.Name
    Columns := fk.RefColumnNames
    References := fk.ColumnNames
    OnUpdate := fk.OnUpdate
    OnDelete := fk.OnDelete }

/-- Go `append` on a relationship slice: appending to a nil slice yields a
one-element non-nil slice. -/
def optAppend (o : Option (List Relationship)) (r : Relationship) :
    Option (List Relationship) :=
  some (o.getD [] ++ [r])

/-- First loop of `buildRelationships` (lines 124-130): a nil `HasMany` or
`BelongsTo` slice is replaced by an empty non-nil slice; non-nil slices are
left untouched. -/
def initRelationships (t : Table) : Table :=
  { t with HasMany := some (t.HasMany.getD []), BelongsTo := some (t.BelongsTo.getD []) }

/-- Body of the inner loop of `buildRelationships` (lines 136-163): process one
foreign key `fk` of the table at position `i` of the state `st`: append a
`BelongsTo` entry to that table, then look up the referenced table by its key
and, when found, append a `HasMany` entry to it. -/
def processFK (lookup : String → Option Nat) (i : Nat) (st : List Table)
    (fk : ForeignKey) : List Table :=
  match st[i]? with
  | none => st
  | some table =>
    let st1 := modifyIdx
      (fun t => { t with BelongsTo := optAppend t.BelongsTo (mkBelongsTo fk) }) i st
    match lookup (fkRefKey fk) with
    | some j => modifyIdx
        (fun t => { t with HasMany := optAppend t.HasMany (mkHasMany table.Name table.Schema fk) })
        j st1
    | none => st1

/-- Body of the outer loop of `buildRelationships` (lines 134-164): process all
foreign keys of the table at position `i`, in declaration order. -/
def processTable (lookup : String → Option Nat) (st : List Table) (i : Nat) :
    List Table :=
  match st[i]? with
  | none => st
  | some table => table.ForeignKeys.foldl (processFK lookup i) st

/-- `buildRelationships` (dbinfo.go, lines 117-165): build the table map and
initialize the relationship slices, then process every table's foreign keys in
slice order. The map is keyed by `Schema + "." + Name`, which
`initRelationships` does not change, so it is computed from the input tables. -/
def buildRelationships (tables : List Table) : List Table :=
  let lookup := tableMapLookup tables
  let st := tables.map initRelationships
  (List.range st.length).foldl (processTable lookup) st

/-- All `HasMany` entries the second loop of `buildRelationships` adds to the
table at position `k`, contributed by the foreign keys of one processed table
`t`: one entry per foreign key of `t` whose looked-up target is position `k`,
in declaration order. -/
def contribOf (lookup : String → Option Nat) (k : Nat) (t : Table) :
    List Relationship :=
  t.ForeignKeys.filterMap fun fk =>
    if lookup (fkRefKey fk) = some k then some (mkHasMany t.Name t.Schema fk) else none

/-- All `HasMany` entries added to the table at position `k`, in the overall
table-then-foreign-key iteration order of the input sequence. -/
def hasManyFrom (lookup : String → Option Nat) (k : Nat) (tables : List Table) :
    List Relationship :=
  tables.flatMap (contribOf lookup k)

/-- A table with its relationship slices removed; two tables with equal
`stripRel` images agree on every field `buildRelationships` reads but never
writes. -/
def stripRel (t : Table) : Table := { t with HasMany := none, BelongsTo := none }

/-- Relationship with yaml tags (`RelationshipYAML` in cmd/dbinfo/main.go). -/
structure RelationshipYAML where
  Table : String
  Schema : String
  ForeignKey : String
  Columns : List String
  References : List String
  OnUpdate : String
  OnDelete : String
  deriving Repr, DecidableEq

/-- Table with yaml tags (`TableYAML` in cmd/dbinfo/main.go). `HasMany` and
`BelongsTo` carry the yaml tags `hasmany,omitempty` and `belongsto,omitempty`;
`none` models the Go zero value (nil slice), which `convertToYAML` leaves in
place when a table has no relationships. -/
structure TableYAML where
  Name : String
  Schema : String
  Columns : List Column
  Indexes : List Index
  ForeignKeys : List ForeignKey
  HasMany : Option (List RelationshipYAML)
  BelongsTo : Option (List RelationshipYAML)
  Comment : String
  deriving Repr, DecidableEq

/-- Database structure with yaml tags (`DBInfoYAML` in cmd/dbinfo/main.go). -/
structure DBInfoYAML where
  Name : String
  Tables : List TableYAML
  deriving Repr, DecidableEq

/-- Field-by-field copy of one relationship entry, as done by the two inner
loops of `convertToYAML` (lines 60-69 and 77-86 of cmd/dbinfo/main.go). -/
def convertRelationship (rel : Relationship) : RelationshipYAML :=
  { Table := rel.Table
    Schema := rel.Schema
    ForeignKey := rel.ForeignKey
    Columns := rel.Columns
    References := rel.References
    OnUpdate := rel.OnUpdate
    OnDelete := rel.OnDelete }

/-- Conversion of one table by `convertToYAML` (lines 46-90 of
cmd/dbinfo/main.go): `HasMany`/`BelongsTo` are populated only when
`len(table.HasMany) > 0` resp. `len(table.BelongsTo) > 0` (a Go nil slice has
length 0); otherwise they keep the zero value nil. -/
def convertTableToYAML (table : Table) : TableYAML :=
  { Name := table.Name
    Schema := table.Schema
    Columns := table.Columns
    Indexes := table.Indexes
    ForeignKeys := table.ForeignKeys
    Comment := table.Comment
    HasMany :=
      if 0 < (table.HasMany.getD []).length
      then some ((table.HasMany.getD []).map convertRelationship)
      else none
    BelongsTo :=
      if 0 < (table.BelongsTo.getD []).length
      then some ((table.BelongsTo.getD []).map convertRelationship)
      else none }

/-- `convertToYAML` (cmd/dbinfo/main.go, lines 41-93): the `Tables` slice is
allocated with `len(info.Tables)` entries and filled position by position. -/
def convertToYAML (info : DBInfo) : DBInfoYAML :=
  { Name := info.Name, Tables := info.Tables.map convertTableToYAML }

/-- Model of gopkg.in/yaml.v3 marshalling of a slice-valued struct field whose
yaml tag carries `omitempty`: the field is present in the serialized document
exactly when the slice is non-nil and nonempty; a nil or empty slice makes the
marshaller drop the field entirely. -/
def omitemptyEmitted (o : Option (List RelationshipYAML)) : Bool :=
  !(o.getD []).isEmpty

/-- Concrete table constructor used by the examples below: a table with the
given schema, name and foreign keys, and nil relationship slices. -/
def mkTable (schema name : String) (fks : List ForeignKey) : Table :=
  { Name := name
    Schema := schema
    Columns := []
    Indexes := []
    ForeignKeys := fks
    HasMany := none
    BelongsTo := none
    Comment := "" }

/-- Concrete foreign key constructor used by the examples below. -/
def mkFK (name : String) (cols : List String) (refSchema refName : String)
    (refCols : List String) : ForeignKey :=
  { Name := name
    ColumnNames := cols
    RefTableSchema := refSchema
    RefTableName := refName
    RefColumnNames := refCols
    OnUpdate := "NO ACTION"
    OnDelete := "NO ACTION" }

/-- A sample relationship entry, used to model pre-existing entries on input. -/
def sampleRel : Relationship :=
  { Table := "zz"
    Schema := "zs"
    ForeignKey := "zfk"
    Columns := ["zc"]
    References := ["zr"]
    OnUpdate := "NO ACTION"
    OnDelete := "NO ACTION" }

/-- Table named `b.c` in schema `a`; its key is `a.b.c`. -/
def cexC1R : Table := mkTable "a" "b.c" []

/-- Table named `c` in schema `a.b`; its key is also `a.b.c`. -/
def cexC1Rbis : Table := mkTable "a.b" "c" []

/-- Foreign key whose target pair is exactly `(schema a, table b.c)`. -/
def cexC1fk : ForeignKey := mkFK "fk1" ["x"] "a" "b.c" ["y"]

/-- Source table holding `cexC1fk`. -/
def cexC1T : Table := mkTable "s" "t" [cexC1fk]

/-- Input slice where the referenced table is present but its key collides. -/
def cexC1 : List Table := [cexC1R, cexC1Rbis, cexC1T]

/-- Same shape of collision with different identifiers. -/
def cexC2R : Table := mkTable "p" "q.r" []

def cexC2Rbis : Table := mkTable "p.q" "r" []

def cexC2fk : ForeignKey := mkFK "fk2" ["c1"] "p" "q.r" ["d1"]

def cexC2T : Table := mkTable "s2" "t2" [cexC2fk]

def cexC2 : List Table := [cexC2R, cexC2Rbis, cexC2T]

/-- A table with no foreign keys whose `HasMany` slice is non-nil and nonempty
on input. -/
def cexC3 : Table :=
  { mkTable "s3" "t3" [] with HasMany := some [sampleRel], BelongsTo := some [] }

/-- Collision instance with two distinct foreign keys to the same target pair. -/
def cexC5R : Table := mkTable "u" "v.w" []

def cexC5Rbis : Table := mkTable "u.v" "w" []

def cexC5fk1 : ForeignKey := mkFK "fk5a" ["a1"] "u" "v.w" ["b1"]

def cexC5fk2 : ForeignKey := mkFK "fk5b" ["a2"] "u" "v.w" ["b2"]

def cexC5T : Table := mkTable "s5" "t5" [cexC5fk1, cexC5fk2]

def cexC5 : List Table := [cexC5R, cexC5Rbis, cexC5T]

/-- A table with no foreign keys whose `BelongsTo` slice already holds an entry
on input. -/
def cexC6 : Table := { mkTable "s6" "t6" [] with BelongsTo := some [sampleRel] }

/-- Self-referencing foreign key with two local columns but one referenced
column. -/
def cexC7fk : ForeignKey := mkFK "fk7" ["a", "b"] "s7" "t7" ["x"]

def cexC7 : Table := mkTable "s7" "t7" [cexC7fk]

/-- A database whose only table has empty (non-nil) relationship slices, as the
core produces for a table without relationships. -/
def cexC9 : DBInfo :=
  { Name := "db9"
    Tables := [{ mkTable "s9" "t9" [] with HasMany := some [], BelongsTo := some [] }] }

/-- Collision instance for the lookup-key claim. -/
def exC10A : Table := mkTable "m" "n.o" []

def exC10B : Table := mkTable "m.n" "o" []

def exC10fk : ForeignKey := mkFK "fk10" ["x0"] "m" "n.o" ["y0"]

def exC10T : Table := mkTable "s0" "t0" [exC10fk]

def exC10 : List Table := [exC10A, exC10B, exC10T]

/-- Dot-free referenced table used by the witnesses. -/
def wR : Table := mkTable "ws" "wr" []

/-- Dot-free foreign key from `wT` to `wR`. -/
def wFK : ForeignKey := mkFK "wfk" ["wc"] "ws" "wr" ["wd"]

/-- Dot-free referencing table used by the witnesses. -/
def wT : Table := mkTable "ws" "wt" [wFK]

/-- Clean two-table witness input. -/
def wTables : List Table := [wR, wT]

/-- Isolated clean table. -/
def wIso : Table := mkTable "ws" "wiso" []

/-- Self-referencing foreign key on `wSelf`. -/
def wSelfFK : ForeignKey := mkFK "wsfk" ["sp"] "ws" "wself" ["sq"]

/-- Clean table whose single foreign key references itself. -/
def wSelf : Table := mkTable "ws" "wself" [wSelfFK]

/-- Second distinct foreign key from `w5T` to `wR`. -/
def wFK2 : ForeignKey := mkFK "wfk2" ["wc2"] "ws" "wr" ["wd2"]

/-- Table with two distinct foreign keys to `wR`. -/
def w5T : Table := mkTable "ws" "wt5" [wFK, wFK2]

/-- Witness input for the multiplicity claim. -/
def w5Tables : List Table := [wR, w5T]

/-- Witness table with a mismatched foreign key and a pre-existing entry. -/
def w7fk : ForeignKey := mkFK "w7fk" ["m1", "m2"] "ws" "w7" ["n1"]

def w7T : Table := mkTable "ws" "w7" [w7fk]

/-- Witness database for the adapter claim. -/
def w9Info : DBInfo :=
  { Name := "dbw9"
    Tables := [{ mkTable "ws" "w9" [] with HasMany := some [], BelongsTo := some [] }] }

theorem modifyIdx_length {α : Type} (f : α → α) (n : Nat) (l : List α) :
    (modifyIdx f n l).length = l.length := by
  induction l generalizing n with
  | nil => cases n <;> rfl
  | cons a l ih =>
    cases n with
    | zero => rfl
    | succ n => simpa [modifyIdx] using ih n

theorem modifyIdx_getElem? {α : Type} (f : α → α) (n m : Nat) (l : List α) :
    (modifyIdx f n l)[m]? = if m = n then Option.map f l[m]? else l[m]? := by
  induction l generalizing n m with
  | nil => cases n <;> simp [modifyIdx]
  | cons a l ih =>
    cases n with
    | zero =>
      cases m with
      | zero => simp [modifyIdx]
      | succ m => simp [modifyIdx]
    | succ n =>
      cases m with
      | zero => simp [modifyIdx]
      | succ m => simpa [modifyIdx] using ih n m

theorem tableMapLookupAux_eq_none (key : String) (i : Nat) (ts : List Table) :
    tableMapLookupAux key i ts = none ↔ ∀ t ∈ ts, t.key ≠ key := by
  induction ts generalizing i with
  | nil => simp [tableMapLookupAux]
  | cons t ts ih =>
    rw [tableMapLookupAux]
    cases h : tableMapLookupAux key (i + 1) ts with
    | some j =>
      constructor
      · intro hc; exact nomatch hc
      · intro hall
        have hnone : tableMapLookupAux key (i + 1) ts = none :=
          (ih (i + 1)).mpr (fun u hu => hall u (List.mem_cons_of_mem t hu))
        rw [h] at hnone; exact nomatch hnone
    | none =>
      by_cases hk : t.key = key
      · rw [if_pos hk]
        constructor
        · intro hc; exact nomatch hc
        · intro hall; exact absurd hk (hall t (List.mem_cons_self t ts))
      · rw [if_neg hk]
        constructor
        · intro _ u hu
          rcases List.mem_cons.mp hu with rfl | hu'
          · exact hk
          · exact (ih (i + 1)).mp h u hu'
        · intro _; rfl

theorem tableMapLookupAux_eq_some (key : String) (ts : List Table) :
    ∀ (i j : Nat), tableMapLookupAux key i ts = some j →
      ∃ (k : Nat) (t : Table), ts[k]? = some t ∧ t.key = key ∧ j = i + k := by
  induction ts with
  | nil => intro i j h; exact nomatch h
  | cons t ts ih =>
    intro i j h
    rw [tableMapLookupAux] at h
    cases h' : tableMapLookupAux key (i + 1) ts with
    | some j' =>
      rw [h'] at h
      have hjj : j' = j := Option.some.inj h
      subst hjj
      obtain ⟨k, u, hget, hkey, hj⟩ := ih (i + 1) j' h'
      exact ⟨k + 1, u, by simpa using hget, hkey, by omega⟩
    | none =>
      rw [h'] at h
      by_cases hk : t.key = key
      · rw [if_pos hk] at h
        have hij : i = j := Option.some.inj h
        exact ⟨0, t, List.getElem?_cons_zero, hk, by omega⟩
      · rw [if_neg hk] at h
        exact nomatch h

theorem tableMapLookupAux_of_nodup (key : String) (ts : List Table) :
    ∀ (i r : Nat) (tr : Table), (ts.map Table.key).Nodup → ts[r]? = some tr →
      tr.key = key → tableMapLookupAux key i ts = some (i + r) := by
  induction ts with
  | nil => intro i r tr _ hget; exact nomatch hget
  | cons t ts ih =>
    intro i r tr hnd hget hkey
    rw [List.map_cons, List.nodup_cons] at hnd
    rw [tableMapLookupAux]
    cases r with
    | zero =>
      rw [List.getElem?_cons_zero] at hget
      obtain rfl : t = tr := Option.some.inj hget
      have hnone : tableMapLookupAux key (i + 1) ts = none := by
        rw [tableMapLookupAux_eq_none]
        intro u hu hukey
        have htu : t.key ∈ List.map Table.key ts := by
          rw [show t.key = u.key from by rw [hkey, hukey]]
          exact List.mem_map_of_mem Table.key hu
        exact hnd.1 htu
      rw [hnone]
      show (if t.key = key then some i else none) = some (i + 0)
      rw [if_pos hkey]
      rfl
    | succ r =>
      have h2 := ih (i + 1) r tr hnd.2 (by simpa using hget) hkey
      rw [h2]
      show some (i + 1 + r) = some (i + (r + 1))
      congr 1
      omega

theorem tableMapLookup_eq_none (key : String) (tables : List Table) :
    tableMapLookup tables key = none ↔ ∀ t ∈ tables, t.key ≠ key :=
  tableMapLookupAux_eq_none key 0 tables

theorem tableMapLookup_eq_some (key : String) (tables : List Table) (j : Nat)
    (h : tableMapLookup tables key = some j) :
    ∃ t : Table, tables[j]? = some t ∧ t.key = key := by
  obtain ⟨k, t, hget, hkey, hj⟩ := tableMapLookupAux_eq_some key tables 0 j h
  obtain rfl : j = k := by omega
  exact ⟨t, hget, hkey⟩

theorem tableMapLookup_of_nodup (key : String) (tables : List Table) (r : Nat)
    (tr : Table) (hnd : (tables.map Table.key).Nodup) (hget : tables[r]? = some tr)
    (hkey : tr.key = key) : tableMapLookup tables key = some r := by
  simpa using tableMapLookupAux_of_nodup key tables 0 r tr hnd hget hkey

theorem stripRel_Name {t1 t2 : Table} (h : stripRel t1 = stripRel t2) :
    t1.Name = t2.Name :=
  show (stripRel t1).Name = (stripRel t2).Name from congrArg Table.Name h

theorem stripRel_Schema {t1 t2 : Table} (h : stripRel t1 = stripRel t2) :
    t1.Schema = t2.Schema :=
  show (stripRel t1).Schema = (stripRel t2).Schema from congrArg Table.Schema h

theorem stripRel_ForeignKeys {t1 t2 : Table} (h : stripRel t1 = stripRel t2) :
    t1.ForeignKeys = t2.ForeignKeys :=
  show (stripRel t1).ForeignKeys = (stripRel t2).ForeignKeys from
    congrArg Table.ForeignKeys h

theorem processFK_getElem? (lookup : String → Option Nat) (i : Nat)
    (st : List Table) (fk : ForeignKey) (ti : Table) (hi : st[i]? = some ti)
    (k : Nat) (tk : Table) (hk : st[k]? = some tk) :
    (processFK lookup i st fk)[k]? = some
      { tk with
        BelongsTo := if i = k then optAppend tk.BelongsTo (mkBelongsTo fk)
                     else tk.BelongsTo
        HasMany := if lookup (fkRefKey fk) = some k
                   then optAppend tk.HasMany (mkHasMany ti.Name ti.Schema fk)
                   else tk.HasMany } := by
  simp only [processFK, hi]
  cases hl : lookup (fkRefKey fk) with
  | none =>
    rw [modifyIdx_getElem?]
    by_cases hik : i = k
    · subst hik
      rw [if_pos rfl, if_pos rfl, hk]
      rfl
    · rw [if_neg (fun h => hik h.symm), if_neg hik, hk]
      rfl
  | some j =>
    rw [modifyIdx_getElem?, modifyIdx_getElem?, hk]
    simp only [Option.some.injEq]
    split_ifs <;> first | rfl | omega

theorem processFK_length (lookup : String → Option Nat) (i : Nat)
    (st : List Table) (fk : ForeignKey) :
    (processFK lookup i st fk).length = st.length := by
  rw [processFK]
  cases hi : st[i]? with
  | none => rfl
  | some ti =>
    cases hl : lookup (fkRefKey fk) with
    | none => simp [modifyIdx_length]
    | some j => simp [modifyIdx_length]

theorem processFK_stripRel (lookup : String → Option Nat) (i : Nat)
    (st : List Table) (fk : ForeignKey) (m : Nat) :
    ((processFK lookup i st fk)[m]?).map stripRel = (st[m]?).map stripRel := by
  rw [processFK]
  cases hi : st[i]? with
  | none => rfl
  | some ti =>
    cases hl : lookup (fkRefKey fk) with
    | none =>
      rw [modifyIdx_getElem?]
      by_cases hmi : m = i
      · rw [if_pos hmi]
        cases hm : st[m]? <;> rfl
      · rw [if_neg hmi]
    | some j =>
      rw [modifyIdx_getElem?, modifyIdx_getElem?]
      by_cases hmj : m = j
      · rw [if_pos hmj]
        by_cases hmi : m = i
        · rw [if_pos hmi]
          cases hm : st[m]? <;> rfl
        · rw [if_neg hmi]
          cases hm : st[m]? <;> rfl
      · rw [if_neg hmj]
        by_cases hmi : m = i
        · rw [if_pos hmi]
          cases hm : st[m]? <;> rfl
        · rw [if_neg hmi]

theorem processFKs_length (lookup : String → Option Nat) (i : Nat)
    (fks : List ForeignKey) :
    ∀ st : List Table, (fks.foldl (processFK lookup i) st).length = st.length := by
  induction fks with
  | nil => intro st; rfl
  | cons fk fks ih =>
    intro st
    rw [List.foldl_cons, ih, processFK_length]

theorem processFKs_stripRel (lookup : String → Option Nat) (i : Nat)
    (fks : List ForeignKey) :
    ∀ (st : List Table) (m : Nat),
      ((fks.foldl (processFK lookup i) st)[m]?).map stripRel = (st[m]?).map stripRel := by
  induction fks with
  | nil => intro st m; rfl
  | cons fk fks ih =>
    intro st m
    rw [List.foldl_cons, ih, processFK_stripRel]

theorem processFKs_getElem? (lookup : String → Option Nat) (i : Nat)
    (fks : List ForeignKey) :
    ∀ (st : List Table) (ti : Table), st[i]? = some ti →
      ∀ (k : Nat) (tk : Table) (B H : List Relationship),
        st[k]? = some tk → tk.BelongsTo = some B → tk.HasMany = some H →
        (fks.foldl (processFK lookup i) st)[k]? = some
          { tk with
            BelongsTo := some (B ++ if i = k then fks.map mkBelongsTo else [])
            HasMany := some (H ++ fks.filterMap fun fk =>
              if lookup (fkRefKey fk) = some k
              then some (mkHasMany ti.Name ti.Schema fk) else none) } := by
  induction fks with
  | nil =>
    intro st ti hi k tk B H hk hB hH
    simp only [List.foldl_nil, List.map_nil, List.filterMap_nil, ite_self,
      List.append_nil]
    rw [hk, ← hB, ← hH]
  | cons fk fks ih =>
    intro st ti hi k tk B H hk hB hH
    rw [List.foldl_cons]
    have hi' := processFK_getElem? lookup i st fk ti hi i ti hi
    have hk' := processFK_getElem? lookup i st fk ti hi k tk hk
    have hB' : (if i = k then optAppend tk.BelongsTo (mkBelongsTo fk)
        else tk.BelongsTo) =
        some (B ++ if i = k then [mkBelongsTo fk] else []) := by
      by_cases hik : i = k
      · simp [hik, optAppend, hB]
      · simp [hik, hB]
    have hH' : (if lookup (fkRefKey fk) = some k
        then optAppend tk.HasMany (mkHasMany ti.Name ti.Schema fk)
        else tk.HasMany) =
        some (H ++ if lookup (fkRefKey fk) = some k
          then [mkHasMany ti.Name ti.Schema fk] else []) := by
      by_cases hl : lookup (fkRefKey fk) = some k
      · simp [hl, optAppend, hH]
      · simp [hl, hH]
    have hres := ih _ _ hi' k _ _ _ hk' hB' hH'
    rw [hres]
    by_cases hik : i = k <;> by_cases hl : lookup (fkRefKey fk) = some k <;>
      simp [hik, hl, List.filterMap_cons, List.append_assoc]

theorem processTables_getElem? (lookup : String → Option Nat) (tables : List Table)
    (is : List Nat) :
    ∀ st : List Table,
      (∀ m : Nat, (st[m]?).map stripRel = (tables[m]?).map stripRel) →
      ∀ (k : Nat) (tk : Table) (B H : List Relationship),
        st[k]? = some tk → tk.BelongsTo = some B → tk.HasMany = some H →
        (is.foldl (processTable lookup) st)[k]? = some
          { tk with
            BelongsTo := some (B ++ is.flatMap fun i =>
              if i = k
              then (((tables[i]?).map Table.ForeignKeys).getD []).map mkBelongsTo
              else [])
            HasMany := some (H ++ is.flatMap fun i =>
              ((tables[i]?).map (contribOf lookup k)).getD []) } := by
  induction is with
  | nil =>
    intro st _ k tk B H hk hB hH
    simp only [List.foldl_nil, List.flatMap_nil, List.append_nil]
    rw [hk, ← hB, ← hH]
  | cons i is ih =>
    intro st hskel k tk B H hk hB hH
    rw [List.foldl_cons, List.flatMap_cons, List.flatMap_cons]
    cases hi : st[i]? with
    | none =>
      have hstep : processTable lookup st i = st := by rw [processTable, hi]
      cases htab : tables[i]? with
      | some T =>
        have hc := hskel i
        rw [hi, htab] at hc
        exact nomatch hc
      | none =>
        rw [hstep]
        simp only [Option.map_none', Option.getD_none, List.map_nil, ite_self,
          List.nil_append]
        exact ih st hskel k tk B H hk hB hH
    | some ti =>
      have hstep : processTable lookup st i =
          ti.ForeignKeys.foldl (processFK lookup i) st := by rw [processTable, hi]
      cases htab : tables[i]? with
      | none =>
        have hc := hskel i
        rw [hi, htab] at hc
        exact nomatch hc
      | some T =>
        have hc := hskel i
        rw [hi, htab] at hc
        have hstrip : stripRel ti = stripRel T := Option.some.inj hc
        have hfks : ti.ForeignKeys = T.ForeignKeys := stripRel_ForeignKeys hstrip
        have hnm : ti.Name = T.Name := stripRel_Name hstrip
        have hsc : ti.Schema = T.Schema := stripRel_Schema hstrip
        rw [hstep]
        have hkin := processFKs_getElem? lookup i ti.ForeignKeys st ti hi k tk B H
          hk hB hH
        have hskel1 : ∀ m,
            ((ti.ForeignKeys.foldl (processFK lookup i) st)[m]?).map stripRel =
              (tables[m]?).map stripRel :=
          fun m => (processFKs_stripRel lookup i ti.ForeignKeys st m).trans (hskel m)
        have hres := ih _ hskel1 k _ _ _ hkin rfl rfl
        rw [hres]
        simp only [Option.map_some', Option.getD_some, contribOf]
        rw [← hfks, ← hnm, ← hsc]
        simp [List.append_assoc]

theorem range_flatMap_single {β : Type} (n k : Nat) (f : Nat → List β)
    (hk : k < n) (h : ∀ i : Nat, i ≠ k → f i = []) :
    (List.range n).flatMap f = f k := by
  induction n with
  | zero => omega
  | succ n ih =>
    rw [List.range_succ, List.flatMap_append]
    by_cases hkn : k = n
    · subst hkn
      have hnil : (List.range k).flatMap f = [] :=
        List.flatMap_eq_nil_iff.mpr
          (fun i hi => h i (by have := List.mem_range.mp hi; omega))
      rw [hnil]
      simp
    · have hk' : k < n := by omega
      rw [ih hk']
      have hfn : f n = [] := h n (fun hh => hkn hh.symm)
      simp [hfn]

theorem range_flatMap_getD {α β : Type} (l : List α) (g : α → List β) :
    (List.range l.length).flatMap (fun i => ((l[i]?).map g).getD []) =
      l.flatMap g := by
  induction l with
  | nil => rfl
  | cons a l ih =>
    rw [List.length_cons, List.range_succ_eq_map, List.flatMap_cons,
      List.flatMap_map, List.flatMap_cons]
    congr 1
    · simp
    · simpa using ih

theorem buildRelationships_getElem? (tables : List Table) (k : Nat) (t : Table)
    (hk : tables[k]? = some t) :
    (buildRelationships tables)[k]? = some
      { t with
        BelongsTo := some (t.BelongsTo.getD [] ++ t.ForeignKeys.map mkBelongsTo)
        HasMany := some (t.HasMany.getD [] ++
          hasManyFrom (tableMapLookup tables) k tables) } := by
  have hklt : k < tables.length := by
    rcases List.getElem?_eq_some_iff.mp hk with ⟨h, _⟩
    exact h
  have hskel0 : ∀ m : Nat,
      ((tables.map initRelationships)[m]?).map stripRel =
        (tables[m]?).map stripRel := by
    intro m
    rw [List.getElem?_map]
    cases tables[m]? <;> rfl
  have hst0 : (tables.map initRelationships)[k]? = some (initRelationships t) := by
    rw [List.getElem?_map, hk]
    rfl
  have hmain := processTables_getElem? (tableMapLookup tables) tables
    (List.range tables.length) (tables.map initRelationships) hskel0 k
    (initRelationships t) (t.BelongsTo.getD []) (t.HasMany.getD []) hst0 rfl rfl
  have e1 : (List.range tables.length).flatMap (fun i =>
      if i = k
      then (((tables[i]?).map Table.ForeignKeys).getD []).map mkBelongsTo
      else []) = t.ForeignKeys.map mkBelongsTo := by
    rw [range_flatMap_single tables.length k _ hklt (fun i hi => by simp [hi])]
    simp [hk]
  have e2 : (List.range tables.length).flatMap (fun i =>
      ((tables[i]?).map (contribOf (tableMapLookup tables) k)).getD []) =
      hasManyFrom (tableMapLookup tables) k tables :=
    range_flatMap_getD tables (contribOf (tableMapLookup tables) k)
  rw [e1, e2] at hmain
  show ((List.range (tables.map initRelationships).length).foldl
      (processTable (tableMapLookup tables)) (tables.map initRelationships))[k]? = _
  rw [List.length_map]
  exact hmain

theorem processTable_length (lookup : String → Option Nat) (st : List Table)
    (i : Nat) : (processTable lookup st i).length = st.length := by
  rw [processTable]
  cases hi : st[i]? with
  | none => rfl
  | some ti => exact processFKs_length lookup i ti.ForeignKeys st

theorem processTables_length (lookup : String → Option Nat) (is : List Nat) :
    ∀ st : List Table, (is.foldl (processTable lookup) st).length = st.length := by
  induction is with
  | nil => intro st; rfl
  | cons i is ih =>
    intro st
    rw [List.foldl_cons, ih, processTable_length]

theorem buildRelationships_length (tables : List Table) :
    (buildRelationships tables).length = tables.length := by
  show ((List.range (tables.map initRelationships).length).foldl
      (processTable (tableMapLookup tables)) (tables.map initRelationships)).length
      = tables.length
  rw [processTables_length, List.length_map]

theorem flatMap_congr_mem {α β : Type} {l : List α} {f g : α → List β}
    (h : ∀ a ∈ l, f a = g a) : l.flatMap f = l.flatMap g := by
  induction l with
  | nil => rfl
  | cons a l ih =>
    rw [List.flatMap_cons, List.flatMap_cons, h a (List.mem_cons_self a l),
      ih (fun b hb => h b (List.mem_cons_of_mem a hb))]

theorem filterMap_congr_mem {α β : Type} {l : List α} {f g : α → Option β}
    (h : ∀ a ∈ l, f a = g a) : l.filterMap f = l.filterMap g := by
  induction l with
  | nil => rfl
  | cons a l ih =>
    rw [List.filterMap_cons, List.filterMap_cons, h a (List.mem_cons_self a l),
      ih (fun b hb => h b (List.mem_cons_of_mem a hb))]

theorem mem_of_getElem?_eq_some {α : Type} {l : List α} {k : Nat} {a : α}
    (h : l[k]? = some a) : a ∈ l := by
  obtain ⟨hlt, rfl⟩ := List.getElem?_eq_some_iff.mp h
  exact List.getElem_mem hlt

/-- C10: `buildRelationships` resolves foreign-key targets through the string
key `schema ++ "." ++ name`. On `exC10` the two distinct pairs `(m, n.o)` and
`(m.n, o)` share the key `m.n.o`; the foreign key targets the pair of `exC10A`
(position 0), yet the `HasMany` entry lands on `exC10B` (position 1), the table
inserted last under the colliding key, and `exC10A` receives nothing. -/
theorem claim10_key_collision :
    Table.key exC10A = Table.key exC10B ∧
    (exC10A.Schema ≠ exC10B.Schema ∨ exC10A.Name ≠ exC10B.Name) ∧
    exC10fk.RefTableSchema = exC10A.Schema ∧ exC10fk.RefTableName = exC10A.Name ∧
    ((buildRelationships exC10)[0]?).map Table.HasMany = some (some []) ∧
    ((buildRelationships exC10)[1]?).map Table.HasMany =
      some (some [mkHasMany "t0" "s0" exC10fk]) := by
  decide

/-- C1 counterexample: in `cexC1` the table `cexC1R` has exactly the
`(schema, name)` pair referenced by the only foreign key of `cexC1T`, so the
claim demands that exactly one `HasMany` entry be appended to `cexC1R`; the
code appends none to it (the entry goes to `cexC1Rbis`, whose key collides). -/
theorem claim1_counterexample :
    cexC1fk.RefTableSchema = cexC1R.Schema ∧
    cexC1fk.RefTableName = cexC1R.Name ∧
    cexC1T.ForeignKeys = [cexC1fk] ∧
    ((buildRelationships cexC1)[0]?).map Table.HasMany = some (some []) ∧
    ((buildRelationships cexC1)[1]?).map Table.HasMany =
      some (some [mkHasMany "t" "s" cexC1fk]) := by
  decide

/-- C1 (amended): when no two tables share a lookup key and no table key
collides with a foreign key's target key other than by matching its exact
`(schema, name)` pair, `buildRelationships` appends, for every table, exactly
one `BelongsTo` entry per own foreign key (in order) and exactly one `HasMany`
entry on the referenced table per foreign key whose `(RefTableSchema,
RefTableName)` pair matches it; a foreign key whose pair matches no table
contributes no `HasMany` entry to any table, and the function is total. -/
theorem claim1_per_foreign_key (tables : List Table)
    (hkeys : (tables.map Table.key).Nodup)
    (hnocol : ∀ t ∈ tables, ∀ u ∈ tables, ∀ fk ∈ u.ForeignKeys,
      t.key = fkRefKey fk →
      t.Schema = fk.RefTableSchema ∧ t.Name = fk.RefTableName)
    (k : Nat) (t : Table) (hk : tables[k]? = some t) :
    (buildRelationships tables)[k]? = some
      { t with
        BelongsTo := some (t.BelongsTo.getD [] ++ t.ForeignKeys.map mkBelongsTo)
        HasMany := some (t.HasMany.getD [] ++
          tables.flatMap fun u => u.ForeignKeys.filterMap fun fk =>
            if fk.RefTableSchema = t.Schema ∧ fk.RefTableName = t.Name
            then some (mkHasMany u.Name u.Schema fk) else none) } := by
  have hmem_t : t ∈ tables := mem_of_getElem?_eq_some hk
  have hmain := buildRelationships_getElem? tables k t hk
  have hconv : hasManyFrom (tableMapLookup tables) k tables =
      tables.flatMap fun u => u.ForeignKeys.filterMap fun fk =>
        if fk.RefTableSchema = t.Schema ∧ fk.RefTableName = t.Name
        then some (mkHasMany u.Name u.Schema fk) else none := by
    unfold hasManyFrom
    apply flatMap_congr_mem
    intro u hu
    unfold contribOf
    apply filterMap_congr_mem
    intro fk hfk
    apply if_congr ?_ rfl rfl
    constructor
    · intro hl
      obtain ⟨t', hget', hkey'⟩ := tableMapLookup_eq_some (fkRefKey fk) tables k hl
      rw [hk] at hget'
      obtain rfl : t' = t := Option.some.inj hget'.symm
      have hpair := hnocol t' hmem_t u hu fk hfk hkey'
      exact ⟨hpair.1.symm, hpair.2.symm⟩
    · intro hpq
      apply tableMapLookup_of_nodup (fkRefKey fk) tables k t hkeys hk
      show tableKey t.Schema t.Name = tableKey fk.RefTableSchema fk.RefTableName
      rw [← hpq.1, ← hpq.2]
  rw [hconv] at hmain
  exact hmain

/-- C1 witness: the amended theorem applied to the clean two-table input
`wTables` at the referenced table `wR`. -/
theorem claim1_witness :
    ((wTables.map Table.key).Nodup ∧ wTables[0]? = some wR) ∧
    (buildRelationships wTables)[0]? = some
      { wR with
        BelongsTo := some (wR.BelongsTo.getD [] ++ wR.ForeignKeys.map mkBelongsTo)
        HasMany := some (wR.HasMany.getD [] ++
          wTables.flatMap fun u => u.ForeignKeys.filterMap fun fk =>
            if fk.RefTableSchema = wR.Schema ∧ fk.RefTableName = wR.Name
            then some (mkHasMany u.Name u.Schema fk) else none) } :=
  ⟨⟨by decide, by decide⟩,
    claim1_per_foreign_key wTables (by decide) (by decide) 0 wR (by decide)⟩

/-- C2 counterexample: in `cexC2` the table `cexC2R` carries exactly the
`(schema, name)` pair referenced by the foreign key of `cexC2T`, yet after
`buildRelationships` its `HasMany` list is empty: the entry the claim requires
on R does not exist (it was attached to the colliding table `cexC2Rbis`). -/
theorem claim2_counterexample :
    cexC2fk.RefTableSchema = cexC2R.Schema ∧
    cexC2fk.RefTableName = cexC2R.Name ∧
    cexC2fk ∈ cexC2T.ForeignKeys ∧
    ((buildRelationships cexC2)[0]?).map Table.HasMany = some (some []) := by
  decide

/-- C2 (amended): with pairwise-distinct table keys, for every foreign key `fk`
of a table `ti` whose target pair is carried by a present table `tr`, the
output holds on `ti` a `BelongsTo` entry naming `tr` with `Columns =
fk.ColumnNames` and `References = fk.RefColumnNames`, and on `tr` a `HasMany`
entry naming `ti` with the column roles swapped, so that the `BelongsTo`
columns on `ti` equal the `HasMany` references on `tr`. -/
theorem claim2_roundtrip (tables : List Table)
    (hkeys : (tables.map Table.key).Nodup)
    (i r : Nat) (ti tr : Table) (fk : ForeignKey)
    (hi : tables[i]? = some ti) (hr : tables[r]? = some tr)
    (hfk : fk ∈ ti.ForeignKeys)
    (hs : fk.RefTableSchema = tr.Schema) (hn : fk.RefTableName = tr.Name) :
    ∃ ti' tr',
      (buildRelationships tables)[i]? = some ti' ∧
      (buildRelationships tables)[r]? = some tr' ∧
      mkBelongsTo fk ∈ ti'.BelongsTo.getD [] ∧
      mkHasMany ti.Name ti.Schema fk ∈ tr'.HasMany.getD [] ∧
      (mkBelongsTo fk).Table = tr.Name ∧
      (mkBelongsTo fk).Columns = fk.ColumnNames ∧
      (mkBelongsTo fk).References = fk.RefColumnNames ∧
      (mkHasMany ti.Name ti.Schema fk).Table = ti.Name ∧
      (mkHasMany ti.Name ti.Schema fk).Columns = fk.RefColumnNames ∧
      (mkHasMany ti.Name ti.Schema fk).References = fk.ColumnNames ∧
      (mkBelongsTo fk).Columns = (mkHasMany ti.Name ti.Schema fk).References := by
  have hmi := buildRelationships_getElem? tables i ti hi
  have hmr := buildRelationships_getElem? tables r tr hr
  have hlook : tableMapLookup tables (fkRefKey fk) = some r := by
    apply tableMapLookup_of_nodup (fkRefKey fk) tables r tr hkeys hr
    show tableKey tr.Schema tr.Name = tableKey fk.RefTableSchema fk.RefTableName
    rw [← hs, ← hn]
  refine ⟨_, _, hmi, hmr, ?_, ?_, hn, rfl, rfl, rfl, rfl, rfl, rfl⟩
  · show mkBelongsTo fk ∈ ti.BelongsTo.getD [] ++ ti.ForeignKeys.map mkBelongsTo
    exact List.mem_append.mpr (Or.inr (List.mem_map_of_mem mkBelongsTo hfk))
  · show mkHasMany ti.Name ti.Schema fk ∈
      tr.HasMany.getD [] ++ hasManyFrom (tableMapLookup tables) r tables
    refine List.mem_append.mpr (Or.inr ?_)
    unfold hasManyFrom
    refine List.mem_flatMap.mpr ⟨ti, mem_of_getElem?_eq_some hi, ?_⟩
    unfold contribOf
    refine List.mem_filterMap.mpr ⟨fk, hfk, ?_⟩
    rw [if_pos hlook]

/-- C2 witness: the amended theorem applied to the clean input `wTables` with
referencing table `wT` (position 1) and referenced table `wR` (position 0). -/
theorem claim2_witness :
    ((wTables.map Table.key).Nodup ∧ wFK ∈ wT.ForeignKeys) ∧
    (∃ ti' tr',
      (buildRelationships wTables)[1]? = some ti' ∧
      (buildRelationships wTables)[0]? = some tr' ∧
      mkBelongsTo wFK ∈ ti'.BelongsTo.getD [] ∧
      mkHasMany wT.Name wT.Schema wFK ∈ tr'.HasMany.getD [] ∧
      (mkBelongsTo wFK).Table = wR.Name ∧
      (mkBelongsTo wFK).Columns = wFK.ColumnNames ∧
      (mkBelongsTo wFK).References = wFK.RefColumnNames ∧
      (mkHasMany wT.Name wT.Schema wFK).Table = wT.Name ∧
      (mkHasMany wT.Name wT.Schema wFK).Columns = wFK.RefColumnNames ∧
      (mkHasMany wT.Name wT.Schema wFK).References = wFK.ColumnNames ∧
      (mkBelongsTo wFK).Columns = (mkHasMany wT.Name wT.Schema wFK).References) :=
  ⟨⟨by decide, by decide⟩,
    claim2_roundtrip wTables (by decide) 1 0 wT wR wFK (by decide) (by decide)
      (by decide) (by decide) (by decide)⟩

/-- C3 counterexample: `cexC3` has no foreign keys and no incoming references,
but its `HasMany` slice already holds an entry on input; after
`buildRelationships` that list is still `[sampleRel]`, not the empty sequence
the claim demands. -/
theorem claim3_counterexample :
    cexC3.ForeignKeys = [] ∧
    (∀ u ∈ [cexC3], ∀ fk ∈ u.ForeignKeys, fkRefKey fk ≠ cexC3.key) ∧
    ((buildRelationships [cexC3])[0]?).map Table.HasMany =
      some (some [sampleRel]) ∧
    [sampleRel] ≠ ([] : List Relationship) := by
  decide

/-- C3 (amended): after `buildRelationships` every table's `HasMany` and
`BelongsTo` are non-nil (`isSome`); and a table with no foreign keys, no
foreign key in the input targeting its key, and nil-or-empty relationship
slices on input ends with both fields equal to the empty (non-nil) sequence. -/
theorem claim3_initialized (tables : List Table) (k : Nat) (tk : Table)
    (h : (buildRelationships tables)[k]? = some tk) :
    tk.HasMany.isSome ∧ tk.BelongsTo.isSome ∧
    (∀ t : Table, tables[k]? = some t → t.ForeignKeys = [] →
      t.HasMany.getD [] = [] → t.BelongsTo.getD [] = [] →
      (∀ u ∈ tables, ∀ fk ∈ u.ForeignKeys, fkRefKey fk ≠ t.key) →
      tk.HasMany = some [] ∧ tk.BelongsTo = some []) := by
  have hklt : k < tables.length := by
    obtain ⟨hlt, _⟩ := List.getElem?_eq_some_iff.mp h
    rw [buildRelationships_length] at hlt
    exact hlt
  have ht0 : tables[k]? = some tables[k] := List.getElem?_eq_getElem hklt
  have hmain := buildRelationships_getElem? tables k (tables[k]) ht0
  rw [h] at hmain
  have htk := Option.some.inj hmain
  subst htk
  refine ⟨rfl, rfl, ?_⟩
  intro t hkt hfks hH hB hnoref
  rw [ht0] at hkt
  have ht : tables[k] = t := Option.some.inj hkt
  rw [← ht] at hfks hH hB hnoref
  have hnilH : hasManyFrom (tableMapLookup tables) k tables = [] := by
    unfold hasManyFrom
    rw [List.flatMap_eq_nil_iff]
    intro u hu
    unfold contribOf
    rw [List.filterMap_eq_nil_iff]
    intro fk hfk
    have hcond : ¬tableMapLookup tables (fkRefKey fk) = some k := by
      intro hl
      obtain ⟨t', hget', hkey'⟩ := tableMapLookup_eq_some (fkRefKey fk) tables k hl
      rw [ht0] at hget'
      obtain rfl : tables[k] = t' := Option.some.inj hget'
      exact hnoref u hu fk hfk hkey'.symm
    exact if_neg hcond
  constructor
  · show some (tables[k].HasMany.getD [] ++
      hasManyFrom (tableMapLookup tables) k tables) = some []
    rw [hH, hnilH]
    rfl
  · show some (tables[k].BelongsTo.getD [] ++
      tables[k].ForeignKeys.map mkBelongsTo) = some []
    rw [hB, hfks]
    rfl

/-- C3 witness: the amended theorem applied to the isolated clean table
`wIso`, whose output has both fields equal to the empty non-nil sequence. -/
theorem claim3_witness :
    ((buildRelationships [wIso])[0]? =
      some { wIso with HasMany := some [], BelongsTo := some [] }) ∧
    ({ wIso with HasMany := some [], BelongsTo := some [] } : Table).HasMany
      = some [] ∧
    ({ wIso with HasMany := some [], BelongsTo := some [] } : Table).BelongsTo
      = some [] :=
  ⟨by decide,
    ((claim3_initialized [wIso] 0
      { wIso with HasMany := some [], BelongsTo := some [] } (by decide)).2.2
      wIso (by decide) rfl rfl rfl (by decide)).1,
    ((claim3_initialized [wIso] 0
      { wIso with HasMany := some [], BelongsTo := some [] } (by decide)).2.2
      wIso (by decide) rfl rfl rfl (by decide)).2⟩

/-- C4: a table whose single foreign key references itself, run as the input
sequence consisting of that table with nil-or-empty relationship slices, ends
with exactly one `BelongsTo` entry and exactly one `HasMany` entry, both
citing the table itself as the related table. -/
theorem claim4_self_reference (t : Table) (fk : ForeignKey)
    (hfks : t.ForeignKeys = [fk])
    (hs : fk.RefTableSchema = t.Schema) (hn : fk.RefTableName = t.Name)
    (hH : t.HasMany.getD [] = []) (hB : t.BelongsTo.getD [] = []) :
    (buildRelationships [t])[0]? = some
      { t with
        BelongsTo := some [mkBelongsTo fk]
        HasMany := some [mkHasMany t.Name t.Schema fk] } ∧
    (mkBelongsTo fk).Table = t.Name ∧ (mkBelongsTo fk).Schema = t.Schema ∧
    (mkHasMany t.Name t.Schema fk).Table = t.Name ∧
    (mkHasMany t.Name t.Schema fk).Schema = t.Schema := by
  have hk0 : ([t] : List Table)[0]? = some t := rfl
  have hmain := buildRelationships_getElem? [t] 0 t hk0
  have hlook : tableMapLookup [t] (fkRefKey fk) = some 0 := by
    apply tableMapLookup_of_nodup (fkRefKey fk) [t] 0 t (by simp) hk0
    show tableKey t.Schema t.Name = tableKey fk.RefTableSchema fk.RefTableName
    rw [hs, hn]
  have hhm : hasManyFrom (tableMapLookup [t]) 0 [t] =
      [mkHasMany t.Name t.Schema fk] := by
    unfold hasManyFrom
    rw [List.flatMap_cons, List.flatMap_nil, List.append_nil]
    unfold contribOf
    rw [hfks, List.filterMap_cons, if_pos hlook]
    rfl
  rw [hhm, hfks, hB, hH] at hmain
  refine ⟨?_, hn, hs, rfl, rfl⟩
  simp only [List.map_cons, List.map_nil, List.nil_append] at hmain
  rw [hfks]
  exact hmain

/-- C4 witness: the theorem applied to the concrete self-referencing table
`wSelf`. -/
theorem claim4_witness :
    (wSelf.ForeignKeys = [wSelfFK] ∧
      wSelfFK.RefTableSchema = wSelf.Schema ∧
      wSelfFK.RefTableName = wSelf.Name) ∧
    (buildRelationships [wSelf])[0]? = some
      { wSelf with
        BelongsTo := some [mkBelongsTo wSelfFK]
        HasMany := some [mkHasMany wSelf.Name wSelf.Schema wSelfFK] } :=
  ⟨⟨by decide, by decide, by decide⟩,
    (claim4_self_reference wSelf wSelfFK (by decide) (by decide) (by decide)
      rfl rfl).1⟩

/-- C5 counterexample: in `cexC5` the table `cexC5T` holds two distinct
foreign keys, both referencing the pair of `cexC5R`, which is present; yet
after `buildRelationships` the `HasMany` list of `cexC5R` is empty instead of
holding two entries (both went to the colliding table `cexC5Rbis`). -/
theorem claim5_counterexample :
    cexC5fk1.RefTableSchema = cexC5R.Schema ∧
    cexC5fk1.RefTableName = cexC5R.Name ∧
    cexC5fk2.RefTableSchema = cexC5R.Schema ∧
    cexC5fk2.RefTableName = cexC5R.Name ∧
    cexC5fk1.Name ≠ cexC5fk2.Name ∧
    cexC5T.ForeignKeys = [cexC5fk1, cexC5fk2] ∧
    ((buildRelationships cexC5)[0]?).map Table.HasMany = some (some []) := by
  decide

/-- C5 (amended): with pairwise-distinct table keys, two distinct foreign keys
of `ti` both referencing the present table `tr` yield two distinct `BelongsTo`
entries on `ti` and two distinct `HasMany` entries on `tr`, distinguishable by
their `ForeignKey` (constraint name) field — no deduplication by table pair. -/
theorem claim5_multiplicity (tables : List Table)
    (hkeys : (tables.map Table.key).Nodup)
    (i r : Nat) (ti tr : Table) (fk1 fk2 : ForeignKey)
    (hi : tables[i]? = some ti) (hr : tables[r]? = some tr)
    (hfk1 : fk1 ∈ ti.ForeignKeys) (hfk2 : fk2 ∈ ti.ForeignKeys)
    (hs1 : fk1.RefTableSchema = tr.Schema) (hn1 : fk1.RefTableName = tr.Name)
    (hs2 : fk2.RefTableSchema = tr.Schema) (hn2 : fk2.RefTableName = tr.Name)
    (hname : fk1.Name ≠ fk2.Name) :
    ∃ ti' tr',
      (buildRelationships tables)[i]? = some ti' ∧
      (buildRelationships tables)[r]? = some tr' ∧
      mkBelongsTo fk1 ∈ ti'.BelongsTo.getD [] ∧
      mkBelongsTo fk2 ∈ ti'.BelongsTo.getD [] ∧
      mkBelongsTo fk1 ≠ mkBelongsTo fk2 ∧
      (mkBelongsTo fk1).ForeignKey ≠ (mkBelongsTo fk2).ForeignKey ∧
      mkHasMany ti.Name ti.Schema fk1 ∈ tr'.HasMany.getD [] ∧
      mkHasMany ti.Name ti.Schema fk2 ∈ tr'.HasMany.getD [] ∧
      mkHasMany ti.Name ti.Schema fk1 ≠ mkHasMany ti.Name ti.Schema fk2 ∧
      (mkHasMany ti.Name ti.Schema fk1).ForeignKey ≠
        (mkHasMany ti.Name ti.Schema fk2).ForeignKey := by
  have hmi := buildRelationships_getElem? tables i ti hi
  have hmr := buildRelationships_getElem? tables r tr hr
  have hlook1 : tableMapLookup tables (fkRefKey fk1) = some r := by
    apply tableMapLookup_of_nodup (fkRefKey fk1) tables r tr hkeys hr
    show tableKey tr.Schema tr.Name = tableKey fk1.RefTableSchema fk1.RefTableName
    rw [← hs1, ← hn1]
  have hlook2 : tableMapLookup tables (fkRefKey fk2) = some r := by
    apply tableMapLookup_of_nodup (fkRefKey fk2) tables r tr hkeys hr
    show tableKey tr.Schema tr.Name = tableKey fk2.RefTableSchema fk2.RefTableName
    rw [← hs2, ← hn2]
  refine ⟨_, _, hmi, hmr, ?_, ?_, fun hc => hname (congrArg Relationship.ForeignKey hc),
    hname, ?_, ?_, fun hc => hname (congrArg Relationship.ForeignKey hc), hname⟩
  · show mkBelongsTo fk1 ∈ ti.BelongsTo.getD [] ++ ti.ForeignKeys.map mkBelongsTo
    exact List.mem_append.mpr (Or.inr (List.mem_map_of_mem mkBelongsTo hfk1))
  · show mkBelongsTo fk2 ∈ ti.BelongsTo.getD [] ++ ti.ForeignKeys.map mkBelongsTo
    exact List.mem_append.mpr (Or.inr (List.mem_map_of_mem mkBelongsTo hfk2))
  · show mkHasMany ti.Name ti.Schema fk1 ∈
      tr.HasMany.getD [] ++ hasManyFrom (tableMapLookup tables) r tables
    refine List.mem_append.mpr (Or.inr ?_)
    unfold hasManyFrom
    refine List.mem_flatMap.mpr ⟨ti, mem_of_getElem?_eq_some hi, ?_⟩
    unfold contribOf
    refine List.mem_filterMap.mpr ⟨fk1, hfk1, ?_⟩
    rw [if_pos hlook1]
  · show mkHasMany ti.Name ti.Schema fk2 ∈
      tr.HasMany.getD [] ++ hasManyFrom (tableMapLookup tables) r tables
    refine List.mem_append.mpr (Or.inr ?_)
    unfold hasManyFrom
    refine List.mem_flatMap.mpr ⟨ti, mem_of_getElem?_eq_some hi, ?_⟩
    unfold contribOf
    refine List.mem_filterMap.mpr ⟨fk2, hfk2, ?_⟩
    rw [if_pos hlook2]

/-- C5 witness: the amended theorem applied to `w5Tables`, where `w5T` holds
two foreign keys to `wR` with distinct constraint names. -/
theorem claim5_witness :
    ((w5Tables.map Table.key).Nodup ∧ wFK.Name ≠ wFK2.Name) ∧
    (∃ ti' tr',
      (buildRelationships w5Tables)[1]? = some ti' ∧
      (buildRelationships w5Tables)[0]? = some tr' ∧
      mkBelongsTo wFK ∈ ti'.BelongsTo.getD [] ∧
      mkBelongsTo wFK2 ∈ ti'.BelongsTo.getD [] ∧
      mkBelongsTo wFK ≠ mkBelongsTo wFK2 ∧
      (mkBelongsTo wFK).ForeignKey ≠ (mkBelongsTo wFK2).ForeignKey ∧
      mkHasMany w5T.Name w5T.Schema wFK ∈ tr'.HasMany.getD [] ∧
      mkHasMany w5T.Name w5T.Schema wFK2 ∈ tr'.HasMany.getD [] ∧
      mkHasMany w5T.Name w5T.Schema wFK ≠ mkHasMany w5T.Name w5T.Schema wFK2 ∧
      (mkHasMany w5T.Name w5T.Schema wFK).ForeignKey ≠
        (mkHasMany w5T.Name w5T.Schema wFK2).ForeignKey) :=
  ⟨⟨by decide, by decide⟩,
    claim5_multiplicity w5Tables (by decide) 1 0 w5T wR wFK wFK2 (by decide)
      (by decide) (by decide) (by decide) (by decide) (by decide) (by decide)
      (by decide) (by decide)⟩

/-- C6 counterexample: `cexC6` has no foreign keys but a pre-existing
`BelongsTo` entry on input; the claim says the output is computed from the
foreign keys alone (so it should be empty), yet the pre-existing entry is
still there after `buildRelationships`. -/
theorem claim6_counterexample :
    cexC6.ForeignKeys = [] ∧
    ((buildRelationships [cexC6])[0]?).map Table.BelongsTo =
      some (some [sampleRel]) ∧
    [sampleRel] ≠ ([] : List Relationship) := by
  decide

/-- C6 (amended): pre-existing `HasMany`/`BelongsTo` entries are preserved,
not overwritten: only a nil slice is replaced by an empty one, and the entries
computed from the foreign keys are appended after any pre-existing entries;
the number of tables is unchanged. -/
theorem claim6_preexisting_preserved (tables : List Table) (k : Nat) (t : Table)
    (hk : tables[k]? = some t) :
    ((buildRelationships tables)[k]? = some
      { t with
        BelongsTo := some (t.BelongsTo.getD [] ++ t.ForeignKeys.map mkBelongsTo)
        HasMany := some (t.HasMany.getD [] ++
          hasManyFrom (tableMapLookup tables) k tables) }) ∧
    (buildRelationships tables).length = tables.length :=
  ⟨buildRelationships_getElem? tables k t hk, buildRelationships_length tables⟩

/-- C6 witness: on the dirty single-table input `[cexC6]` the pre-existing
entry stays at the head of the output `BelongsTo` list. -/
theorem claim6_witness :
    (([cexC6] : List Table)[0]? = some cexC6) ∧
    (((buildRelationships [cexC6])[0]? = some
      { cexC6 with
        BelongsTo := some (cexC6.BelongsTo.getD [] ++
          cexC6.ForeignKeys.map mkBelongsTo)
        HasMany := some (cexC6.HasMany.getD [] ++
          hasManyFrom (tableMapLookup [cexC6]) 0 [cexC6]) }) ∧
      (buildRelationships [cexC6]).length = ([cexC6] : List Table).length) :=
  ⟨rfl, claim6_preexisting_preserved [cexC6] 0 cexC6 rfl⟩

/-- C7 counterexample: on a foreign key with two local columns and one
referenced column, `buildRelationships` returns normally (it has no error
channel at all) and produces relationship entries carrying the mismatched
lists — it neither detects nor reports the mismatch. -/
theorem claim7_counterexample :
    cexC7fk.ColumnNames.length = 2 ∧
    cexC7fk.RefColumnNames.length = 1 ∧
    buildRelationships [cexC7] = [{ cexC7 with
      BelongsTo := some [mkBelongsTo cexC7fk]
      HasMany := some [mkHasMany "t7" "s7" cexC7fk] }] ∧
    (mkBelongsTo cexC7fk).Columns.length ≠
      (mkBelongsTo cexC7fk).References.length := by
  decide

/-- C7 (amended): `buildRelationships` performs no validation of column-list
lengths and cannot report errors; a foreign key whose `ColumnNames` and
`RefColumnNames` lengths differ silently yields a `BelongsTo` entry whose
`Columns` and `References` lengths differ in the same way. -/
theorem claim7_no_validation (tables : List Table) (k : Nat) (t : Table)
    (fk : ForeignKey) (hk : tables[k]? = some t) (hfk : fk ∈ t.ForeignKeys)
    (hlen : fk.ColumnNames.length ≠ fk.RefColumnNames.length) :
    ∃ t', (buildRelationships tables)[k]? = some t' ∧
      mkBelongsTo fk ∈ t'.BelongsTo.getD [] ∧
      (mkBelongsTo fk).Columns.length ≠ (mkBelongsTo fk).References.length := by
  have hmain := buildRelationships_getElem? tables k t hk
  refine ⟨_, hmain, ?_, hlen⟩
  show mkBelongsTo fk ∈ t.BelongsTo.getD [] ++ t.ForeignKeys.map mkBelongsTo
  exact List.mem_append.mpr (Or.inr (List.mem_map_of_mem mkBelongsTo hfk))

/-- C7 witness: the amended theorem applied to the concrete mismatched
foreign key `w7fk`. -/
theorem claim7_witness :
    (w7fk ∈ w7T.ForeignKeys ∧
      w7fk.ColumnNames.length ≠ w7fk.RefColumnNames.length) ∧
    (∃ t', (buildRelationships [w7T])[0]? = some t' ∧
      mkBelongsTo w7fk ∈ t'.BelongsTo.getD [] ∧
      (mkBelongsTo w7fk).Columns.length ≠ (mkBelongsTo w7fk).References.length) :=
  ⟨⟨by decide, by decide⟩,
    claim7_no_validation [w7T] 0 w7T w7fk (by decide) (by decide) (by decide)⟩

/-- C8: each table's computed `BelongsTo` entries follow its foreign-key
declaration order (`map` over `ForeignKeys`), each table's computed `HasMany`
entries follow the overall table-then-foreign-key iteration order of the input
(`flatMap` over the input sequence of `filterMap` over each table's
`ForeignKeys`), appended after any pre-existing entries; and the function is
deterministic: equal inputs give equal outputs. -/
theorem claim8_ordering_deterministic (tables tables2 : List Table) (k : Nat)
    (t : Table) (hk : tables[k]? = some t) (heq : tables2 = tables) :
    ((buildRelationships tables)[k]? = some
      { t with
        BelongsTo := some (t.BelongsTo.getD [] ++ t.ForeignKeys.map mkBelongsTo)
        HasMany := some (t.HasMany.getD [] ++
          tables.flatMap fun u => u.ForeignKeys.filterMap fun fk =>
            if tableMapLookup tables (fkRefKey fk) = some k
            then some (mkHasMany u.Name u.Schema fk) else none) }) ∧
    buildRelationships tables2 = buildRelationships tables := by
  refine ⟨?_, by rw [heq]⟩
  exact buildRelationships_getElem? tables k t hk

/-- C8 witness: the theorem applied to the clean input `wTables` at the
referenced table `wR`. -/
theorem claim8_witness :
    (wTables[0]? = some wR ∧ wTables = wTables) ∧
    (((buildRelationships wTables)[0]? = some
      { wR with
        BelongsTo := some (wR.BelongsTo.getD [] ++ wR.ForeignKeys.map mkBelongsTo)
        HasMany := some (wR.HasMany.getD [] ++
          wTables.flatMap fun u => u.ForeignKeys.filterMap fun fk =>
            if tableMapLookup wTables (fkRefKey fk) = some 0
            then some (mkHasMany u.Name u.Schema fk) else none) }) ∧
      buildRelationships wTables = buildRelationships wTables) :=
  ⟨⟨by decide, rfl⟩,
    claim8_ordering_deterministic wTables wTables 0 wR (by decide) rfl⟩

/-- C9 counterexample: `cexC9` holds one table whose relationship lists are
empty non-nil sequences, exactly as the core produces them; the adapter sets
the yaml structs' `HasMany`/`BelongsTo` to the Go zero value nil, and under
the `omitempty` yaml tags the marshalled document omits both fields instead of
rendering empty sequences. -/
theorem claim9_counterexample :
    (cexC9.Tables[0]?).map Table.HasMany = some (some []) ∧
    (cexC9.Tables[0]?).map Table.BelongsTo = some (some []) ∧
    ((convertToYAML cexC9).Tables[0]?).map TableYAML.HasMany = some none ∧
    ((convertToYAML cexC9).Tables[0]?).map TableYAML.BelongsTo = some none ∧
    ((convertToYAML cexC9).Tables[0]?).map
      (fun ty => omitemptyEmitted ty.HasMany) = some false ∧
    ((convertToYAML cexC9).Tables[0]?).map
      (fun ty => omitemptyEmitted ty.BelongsTo) = some false := by
  decide

/-- C9 (amended): for every table whose `HasMany` and `BelongsTo` lists are
nil or empty, the presentation adapter leaves the corresponding yaml fields at
their zero value nil, and under the `omitempty` tags the serialized output
omits the fields entirely rather than rendering empty sequences. -/
theorem claim9_omitted_when_empty (info : DBInfo) (k : Nat) (t : Table)
    (hk : info.Tables[k]? = some t)
    (hH : t.HasMany.getD [] = []) (hB : t.BelongsTo.getD [] = []) :
    ∃ ty, (convertToYAML info).Tables[k]? = some ty ∧
      ty.HasMany = none ∧ ty.BelongsTo = none ∧
      omitemptyEmitted ty.HasMany = false ∧
      omitemptyEmitted ty.BelongsTo = false := by
  have e1 : (convertTableToYAML t).HasMany = none := by
    unfold convertTableToYAML
    rw [hH]
    rfl
  have e2 : (convertTableToYAML t).BelongsTo = none := by
    unfold convertTableToYAML
    rw [hB]
    rfl
  refine ⟨convertTableToYAML t, ?_, e1, e2, ?_, ?_⟩
  · show (info.Tables.map convertTableToYAML)[k]? = some (convertTableToYAML t)
    rw [List.getElem?_map, hk]
    rfl
  · rw [e1]
    rfl
  · rw [e2]
    rfl

/-- C9 witness: the amended theorem applied to `w9Info`. -/
theorem claim9_witness :
    (w9Info.Tables[0]? = some
      { mkTable "ws" "w9" [] with HasMany := some [], BelongsTo := some [] }) ∧
    (∃ ty, (convertToYAML w9Info).Tables[0]? = some ty ∧
      ty.HasMany = none ∧ ty.BelongsTo = none ∧
      omitemptyEmitted ty.HasMany = false ∧
      omitemptyEmitted ty.BelongsTo = false) :=
  ⟨rfl,
    claim9_omitted_when_empty w9Info 0
      { mkTable "ws" "w9" [] with HasMany := some [], BelongsTo := some [] }
      rfl rfl rfl⟩

end Dbinfo
